import Mathlib

set_option maxRecDepth 200000

/-!
Shallow embedding of the context-retrieval-and-ranking pipeline of
`backend/rag.py` (EnhancedRAGSystem and the `/query` endpoint), together
with proofs about the spec-level claims on that pipeline.

Modelling conventions:
* Python strings are lists of characters (`PyStr`); `len`, slicing,
  `lower()`, `split()`, `strip()`, `startswith` and substring tests are
  modelled on that representation.
* Python floats are modelled as rationals (`ℚ`).
* The external pieces (the Chroma vector index and the OpenAI client) are
  inputs of the model: the index is a list of hits carrying a distance,
  the client is a Boolean availability flag plus oracles for the text and
  scores an LLM call would return.  Every LLM call the code would issue is
  counted, so "no LLM call happens on this path" is a provable statement.
-/

namespace RAGM

/-- Python strings are modelled as lists of characters. -/
abbrev PyStr := List Char

/-- Python `s.split()`: split on whitespace runs, discarding empty words. -/
def pyWords (s : PyStr) : List PyStr :=
  (s.splitOnP Char.isWhitespace).filter (fun w => w ≠ [])

/-- Python `s.lower()`, modelled with ASCII case folding. -/
def pyLower (s : PyStr) : PyStr := s.map Char.toLower

/-- Python `s.strip()`: remove leading and trailing whitespace. -/
def pyStrip (s : PyStr) : PyStr :=
  ((s.dropWhile Char.isWhitespace).reverse.dropWhile Char.isWhitespace).reverse

/-- Python substring test `needle in hay`. -/
def containsSub (hay needle : PyStr) : Bool :=
  (List.range (hay.length + 1)).any (fun i => needle.isPrefixOf (hay.drop i))

/-- The apostrophe character (kept out of string literals). -/
def apos : Char := Char.ofNat 39

/-- `ContextChunk` from `rag.py`: content, source id, metadata (modelled as
an association list of string keys and values), relevance score, retrieval
method. -/
structure ContextChunk where
  content : PyStr
  source_id : PyStr
  metadata : List (PyStr × PyStr)
  relevance_score : ℚ
  retrieval_method : PyStr
deriving DecidableEq

/-- `RAGConfig` from `rag.py`, with its default values. -/
structure RAGConfig where
  max_context_length : ℕ := 4000
  top_k_retrieval : ℕ := 10
  final_context_chunks : ℕ := 5
  min_relevance_score : ℚ := 1/10
deriving DecidableEq

/-- The module-level `config = RAGConfig()` of `rag.py`. -/
def config : RAGConfig := {}

/-- One hit returned by the vector index: document text, id, metadata and
distance (the Chroma collection uses the default L2 metric). -/
structure Hit where
  doc : PyStr
  id : PyStr
  metadata : List (PyStr × PyStr)
  distance : ℚ
deriving DecidableEq

/-- The loop of `retrieve_context` (rag.py lines 150-165): each hit with
distance `d` is turned into a chunk with `relevance_score = max(0, 1-d)`,
kept only when the score reaches `min_relevance_score`. -/
def retrieveFilter (cfg : RAGConfig) (hits : List Hit) : List ContextChunk :=
  hits.filterMap (fun h =>
    let relevance_score := max 0 (1 - h.distance)
    if cfg.min_relevance_score ≤ relevance_score then
      some { content := h.doc
             source_id := h.id
             metadata := h.metadata
             relevance_score := relevance_score
             retrieval_method := "semantic".toList }
    else none)

/-- `set(content.lower().split())` as a finite set of words. -/
def wordSet (s : PyStr) : Finset PyStr := (pyWords (pyLower s)).toFinset

/-- Word-set Jaccard overlap, with the rational convention `0 / 0 = 0`. -/
def overlapQ (a b : Finset PyStr) : ℚ :=
  ((a ∩ b).card : ℚ) / ((a ∪ b).card : ℚ)

/-- The similarity test of `_ensure_diversity`: the overlap is only computed
when both word sets are non-empty, and the chunk is too similar when the
overlap exceeds `0.7`. -/
def tooSimilar (c e : ContextChunk) : Bool :=
  let cw := wordSet c.content
  let ew := wordSet e.content
  if 0 < cw.card ∧ 0 < ew.card then decide (7/10 < overlapQ cw ew) else false

/-- The loop of `_ensure_diversity` over `chunks[1:]`: `acc` is the list of
already-accepted chunks; a chunk is appended unless it is too similar to
some accepted chunk. -/
def diversityGo (acc : List ContextChunk) : List ContextChunk → List ContextChunk
  | [] => []
  | c :: cs =>
    if acc.any (fun e => tooSimilar c e) then diversityGo acc cs
    else c :: diversityGo (acc ++ [c]) cs

/-- `_ensure_diversity` (rag.py lines 225-251): lists of length at most one
are returned unchanged, otherwise the first chunk is always kept and the
rest are filtered by the similarity test. -/
def ensureDiversity (chunks : List ContextChunk) : List ContextChunk :=
  if chunks.length ≤ 1 then chunks
  else
    match chunks with
    | [] => []
    | c :: cs => c :: diversityGo [c] cs

/-- Spec-level similarity test: drop a chunk exactly when its word-set
Jaccard overlap with an accepted chunk exceeds `0.7` (no emptiness guard;
for comparison with the source-level `tooSimilar`). -/
def specTooSimilar (c e : ContextChunk) : Bool :=
  decide (7/10 < overlapQ (wordSet c.content) (wordSet e.content))

/-- Spec-level diversity loop, mirror of `diversityGo`. -/
def diversitySpecGo (acc : List ContextChunk) : List ContextChunk → List ContextChunk
  | [] => []
  | c :: cs =>
    if acc.any (fun e => specTooSimilar c e) then diversitySpecGo acc cs
    else c :: diversitySpecGo (acc ++ [c]) cs

/-- Spec-level diversity filter: keep the first chunk, drop a later chunk iff
its Jaccard overlap with some already-accepted chunk exceeds `0.7`. -/
def diversitySpec (chunks : List ContextChunk) : List ContextChunk :=
  match chunks with
  | [] => []
  | c :: cs => c :: diversitySpecGo [c] cs

/-- The content-quality predicate of `_apply_advanced_filtering`: stripped
content of length at least 10 that does not start (lowercased) with
"error", "warning" or "debug". -/
def qualityOK (c : ContextChunk) : Bool :=
  10 ≤ (pyStrip c.content).length &&
    !(["error".toList, "warning".toList, "debug".toList].any
        (fun p => p.isPrefixOf (pyLower c.content)))

/-- The recognised `filter_params` keys of a query. -/
structure FilterParams where
  file_type : Option PyStr := none
  min_score : Option ℚ := none
deriving DecidableEq

/-- The user-specified filters of `_apply_advanced_filtering`: exact
`file_type` metadata match, then `min_score` lower bound. -/
def userFilter (fp : Option FilterParams) (l : List ContextChunk) : List ContextChunk :=
  match fp with
  | none => l
  | some p =>
    let g1 :=
      match p.file_type with
      | none => l
      | some ft => l.filter (fun c => c.metadata.lookup "file_type".toList == some ft)
    match p.min_score with
    | none => g1
    | some m => g1.filter (fun c => decide (m ≤ c.relevance_score))

/-- `_apply_advanced_filtering` (rag.py lines 185-223): quality filter, then
user filters, then the diversity filter.  The query argument is unused by
the source body as well. -/
def applyAdvancedFiltering (chunks : List ContextChunk) (query : PyStr)
    (fp : Option FilterParams) : List ContextChunk :=
  ensureDiversity (userFilter fp (chunks.filter qualityOK))

/-- The comparison used by `sorted(chunks, key=lambda x: x.relevance_score,
reverse=True)`: stable descending order on the relevance score. -/
def scoreGE (a b : ContextChunk) : Bool := decide (b.relevance_score ≤ a.relevance_score)

/-- Python `sorted(· , key=relevance_score, reverse=True)`: a stable
descending sort. -/
def sortByScoreDesc (l : List ContextChunk) : List ContextChunk :=
  l.mergeSort scoreGE

/-- Score update of the re-rank loop: the first `k` chunks are the re-rank
candidates; when the oracle yields a parsed LLM score `s` for candidate `i`,
its relevance score becomes the average `(old + s) / 2`, otherwise (parse
failure or API error) the chunk is left unchanged. -/
def rerankUpdate (oracle : ℕ → Option ℚ) (k : ℕ) (l : List ContextChunk) :
    List ContextChunk :=
  l.mapIdx (fun i c =>
    if i < k then
      match oracle i with
      | some s => { c with relevance_score := (c.relevance_score + s) / 2 }
      | none => c
    else c)

/-- `_llm_rerank_contexts` (rag.py lines 253-316), instrumented with the
number of LLM calls it issues.  Empty input is returned as is; when the
input already fits in `final_context_chunks` it is only sorted (no LLM
call); otherwise the first `min(8, len)` chunks are re-scored through the
LLM (one call each when the client is available, none when it is not) and
the whole list is sorted by the updated scores. -/
def llmRerank (cfg : RAGConfig) (clientAvailable : Bool) (oracle : ℕ → Option ℚ)
    (query : PyStr) (chunks : List ContextChunk) : List ContextChunk × ℕ :=
  if chunks = [] then (chunks, 0)
  else if chunks.length ≤ cfg.final_context_chunks then (sortByScoreDesc chunks, 0)
  else
    let k := min 8 chunks.length
    if clientAvailable then (sortByScoreDesc (rerankUpdate oracle k chunks), k)
    else (sortByScoreDesc chunks, 0)

/-- Token estimate of a chunk: `len(chunk.content) // 4`. -/
def estTokens (c : ContextChunk) : ℕ := c.content.length / 4

/-- Truncation of a chunk to a remaining token budget:
`content[:remaining_tokens*4] + "..."`. -/
def truncateChunk (c : ContextChunk) (remaining : ℕ) : ContextChunk :=
  { c with content := c.content.take (remaining * 4) ++ "...".toList }

/-- The loop of `_select_optimal_context`: `total` is the running token
total, `sel` the chunks selected so far.  A fitting chunk is appended (and
the loop stops once `final_context_chunks` chunks are selected); at the
first non-fitting chunk the loop stops, first appending a truncated copy
when strictly more than 100 tokens of budget remain. -/
def selectGo (cfg : RAGConfig) (total : ℕ) (sel : List ContextChunk) :
    List ContextChunk → List ContextChunk
  | [] => sel
  | c :: cs =>
    let t := estTokens c
    if total + t ≤ cfg.max_context_length then
      let sel' := sel ++ [c]
      if cfg.final_context_chunks ≤ sel'.length then sel'
      else selectGo cfg (total + t) sel' cs
    else
      let remaining := cfg.max_context_length - total
      if 100 < remaining then sel ++ [truncateChunk c remaining] else sel

/-- `_select_optimal_context` (rag.py lines 318-343). -/
def selectOptimalContext (cfg : RAGConfig) (chunks : List ContextChunk) :
    List ContextChunk :=
  selectGo cfg 0 [] chunks

/-- The uncertainty phrases of `_calculate_confidence_score`. -/
def uncertaintyPhrases : List PyStr :=
  ["i don".toList ++ [apos] ++ "t know".toList,
   "unclear".toList,
   "insufficient information".toList,
   "not enough".toList]

/-- Factor 1 of the confidence score: mean relevance of the context chunks
(present only when there are chunks). -/
def avgRelevance (chunks : List ContextChunk) : ℚ :=
  (chunks.map (fun c => c.relevance_score)).sum / (chunks.length : ℚ)

/-- Factor 2 of the confidence score: `min(1.0, len(answer) / 200)`. -/
def answerLengthScore (answer : PyStr) : ℚ :=
  min 1 ((answer.length : ℚ) / 200)

/-- Factor 3 of the confidence score: `max(0.0, 1.0 - 0.2 * number of
uncertainty phrases occurring in the lowercased answer)`. -/
def certaintyScore (answer : PyStr) : ℚ :=
  max 0 (1 - (uncertaintyPhrases.countP (fun p => containsSub (pyLower answer) p) : ℚ)
            * (2/10))

/-- Factor 4 of the confidence score: `1.0` when the answer cites a source,
`0.7` otherwise. -/
def citationScore (answer : PyStr) : ℚ :=
  if containsSub answer "[Source:".toList || containsSub answer "Source ".toList
  then 1 else 7/10

/-- The factor list built by `_calculate_confidence_score` (rag.py lines
402-439): the mean-relevance factor only when chunks are present, then the
three answer-based factors. -/
def confFactors (answer : PyStr) (chunks : List ContextChunk) : List ℚ :=
  (if chunks = [] then [] else [avgRelevance chunks])
    ++ [answerLengthScore answer, certaintyScore answer, citationScore answer]

/-- `_calculate_confidence_score`: the mean of the factors, `0.5` when the
factor list is empty. -/
def calcConfidence (query answer : PyStr) (chunks : List ContextChunk) : ℚ :=
  let factors := confFactors answer chunks
  if factors = [] then 1/2 else factors.sum / (factors.length : ℚ)

/-- Decimal rendering of a natural number (used for `Source {i}` labels). -/
def natDigits (n : ℕ) : PyStr := (Nat.toDigits 10 n)

/-- One entry of `_construct_context_string`:
`"Source {i} (ID: {id})[ - {metadata source}]:\n{content}\n"`. -/
def contextPart (i : ℕ) (c : ContextChunk) : PyStr :=
  let info := "Source ".toList ++ natDigits (i + 1) ++ " (ID: ".toList
                ++ c.source_id ++ ")".toList
  let info :=
    match c.metadata.lookup "source".toList with
    | some v => if v = [] then info else info ++ " - ".toList ++ v
    | none => info
  info ++ ":".toList ++ ['\n'] ++ c.content ++ ['\n']

/-- `_construct_context_string` (rag.py lines 345-356). -/
def constructContextString (chunks : List ContextChunk) : PyStr :=
  ['\n'] ++ List.replicate 50 '=' ++ (List.intercalate ['\n'] (chunks.mapIdx contextPart))

/-- The degraded-mode answer of `generate_answer` when no LLM client is
configured. -/
def fallbackAnswer (chunks : List ContextChunk) : PyStr :=
  "Based on the available context:".toList ++ ['\n', '\n']
    ++ (constructContextString chunks).take 500 ++ "...".toList ++ ['\n', '\n']
    ++ "I cannot provide a complete answer as the AI service is not configured.".toList

/-- `generate_answer` (rag.py lines 358-400), instrumented with its LLM call
count: with no client it returns the fallback answer with confidence `0.5`
and no call; with a client it issues one call, whose answer text is the
`llmAnswer` oracle, and scores it with `_calculate_confidence_score`. -/
def generateAnswer (clientAvailable : Bool) (llmAnswer : PyStr) (query : PyStr)
    (chunks : List ContextChunk) : PyStr × ℚ × ℕ :=
  if clientAvailable then
    (llmAnswer, calcConfidence query llmAnswer chunks, 1)
  else
    (fallbackAnswer chunks, 1/2, 0)

/-- `retrieve_context` (rag.py lines 132-183): distance-to-score conversion
and minimum-relevance filter, advanced filtering, LLM re-ranking, context
packing; paired with the number of LLM calls issued. -/
def retrieveContext (cfg : RAGConfig) (clientAvailable : Bool)
    (oracle : ℕ → Option ℚ) (query : PyStr) (fp : Option FilterParams)
    (hits : List Hit) : List ContextChunk × ℕ :=
  let chunks := retrieveFilter cfg hits
  let filtered := applyAdvancedFiltering chunks query fp
  let reranked := llmRerank cfg clientAvailable oracle query filtered
  (selectOptimalContext cfg reranked.1, reranked.2)

/-- `QueryRequest` from `rag.py`. -/
structure QueryRequest where
  query : PyStr
  max_results : ℕ := 5
  include_metadata : Bool := true
  filter_params : Option FilterParams := none
deriving DecidableEq

/-- One entry of the `sources` list of a response. -/
structure SourceEntry where
  id : PyStr
  content_preview : PyStr
  metadata : List (PyStr × PyStr)
  relevance_score : ℚ
deriving DecidableEq

/-- `RAGResponse` from `rag.py` (without the wall-clock fields
`processing_time` and `timestamp`). -/
structure RAGResponse where
  query : PyStr
  answer : PyStr
  sources : List SourceEntry
  context_used : List ContextChunk
  confidence_score : ℚ
deriving DecidableEq

/-- The content preview of a source entry:
`content[:200] + "..." if len(content) > 200 else content`. -/
def previewOf (c : ContextChunk) : PyStr :=
  if 200 < c.content.length then c.content.take 200 ++ "...".toList else c.content

/-- The `sources` list of a successful response (rag.py lines 483-493). -/
def mkSources (chunks : List ContextChunk) (maxResults : ℕ) : List SourceEntry :=
  (chunks.take maxResults).map (fun c =>
    { id := c.source_id
      content_preview := previewOf c
      metadata := c.metadata
      relevance_score := c.relevance_score })

/-- The canned insufficient-information answer of `query_rag`. -/
def cannedAnswer : PyStr :=
  "I don".toList ++ [apos]
    ++ "t have enough information in the knowledge base to answer this question.".toList

/-- `query_rag` (rag.py lines 452-517), instrumented with the total number
of LLM calls issued: retrieval and ranking, the empty-context fast path,
otherwise answer generation over the first `max_results` chunks and the
source summaries. -/
def queryRag (cfg : RAGConfig) (clientAvailable : Bool) (oracle : ℕ → Option ℚ)
    (llmAnswer : PyStr) (req : QueryRequest) (hits : List Hit) : RAGResponse × ℕ :=
  let retrieved := retrieveContext cfg clientAvailable oracle req.query req.filter_params hits
  let ctx := retrieved.1
  if ctx = [] then
    ({ query := req.query
       answer := cannedAnswer
       sources := []
       context_used := []
       confidence_score := 0 }, retrieved.2)
  else
    let gen := generateAnswer clientAvailable llmAnswer req.query (ctx.take req.max_results)
    ({ query := req.query
       answer := gen.1
       sources := mkSources ctx req.max_results
       context_used := if req.include_metadata then ctx.take req.max_results else []
       confidence_score := gen.2.1 }, retrieved.2 + gen.2.2)

/-- Concrete chunk builder for the concrete instances below. -/
def sampleChunk (content : PyStr) (score : ℚ) : ContextChunk :=
  { content := content
    source_id := "doc".toList
    metadata := []
    relevance_score := score
    retrieval_method := "semantic".toList }

/-- A chunk of 15600 characters: 3900 estimated tokens, leaving a budget
remainder of exactly 100 tokens under the default configuration. -/
def c4LongChunk : ContextChunk := sampleChunk (List.replicate 15600 'a') (9/10)

/-- A 500-character chunk (125 estimated tokens), which does not fit after
`c4LongChunk` under the default configuration. -/
def c4NextChunk : ContextChunk := sampleChunk (List.replicate 500 'b') (8/10)

/-- A small configuration used to exercise the truncation branch. -/
def smallConfig : RAGConfig :=
  { max_context_length := 150
    top_k_retrieval := 10
    final_context_chunks := 5
    min_relevance_score := 1/10 }

/-- A 700-character chunk: 175 estimated tokens, more than `smallConfig`
allows, with 150 tokens of budget remaining. -/
def c4BigChunk : ContextChunk := sampleChunk (List.replicate 700 'c') (1/2)

/-- A configuration with a 50-token budget. -/
def tinyConfig : RAGConfig :=
  { max_context_length := 50
    top_k_retrieval := 10
    final_context_chunks := 5
    min_relevance_score := 1/10 }

/-- A 300-character chunk: 75 estimated tokens, more than `tinyConfig`
allows, with only 50 tokens of budget remaining. -/
def c10BigChunk : ContextChunk := sampleChunk (List.replicate 300 'd') 1

/-- A 4-character chunk (1 estimated token), which would fit on its own. -/
def c10SmallChunk : ContextChunk := sampleChunk "tiny".toList 1

/-- A hit whose document is 201 characters long, one more than the preview
limit. -/
def c9Hit : Hit :=
  { doc := List.replicate 201 'a'
    id := "doc1".toList
    metadata := []
    distance := 0 }

/-- The chunk that `retrieveFilter` builds from `c9Hit` (distance 0 gives
relevance score 1). -/
def c9Chunk : ContextChunk :=
  { content := List.replicate 201 'a'
    source_id := "doc1".toList
    metadata := []
    relevance_score := 1
    retrieval_method := "semantic".toList }

/-- A minimal query request with default parameters. -/
def plainReq : QueryRequest := { query := ['q'] }

/-- A hit at distance 1/2. -/
def sampleHit : Hit :=
  { doc := "sample document text".toList
    id := "d1".toList
    metadata := []
    distance := 1/2 }

/-- A short chunk used for the packer witness. -/
def helloChunk : ContextChunk := sampleChunk "hello world context".toList 1

/-- Chunks with distinct scores, listed in ascending score order. -/
def c7ChunkA : ContextChunk := sampleChunk ['a'] (1/2)

/-- Second chunk for the re-ranker witness. -/
def c7ChunkB : ContextChunk := sampleChunk ['b'] (3/4)

/-- Two chunks with disjoint word sets for the diversity witness. -/
def c5ChunkA : ContextChunk := sampleChunk "alpha beta gamma".toList 1

/-- Second chunk for the diversity witness. -/
def c5ChunkB : ContextChunk := sampleChunk "delta epsilon zeta".toList (1/2)

theorem length_dots : ("...".toList).length = 3 := rfl

theorem estTokens_truncateChunk (c : ContextChunk) (rem : ℕ)
    (h : 4 * (rem + 1) ≤ c.content.length) :
    estTokens (truncateChunk c rem) = rem := by
  simp only [estTokens, truncateChunk, List.length_append, List.length_take, length_dots]
  omega

theorem selectGo_bounds (cfg : RAGConfig) (cs : List ContextChunk) :
    ∀ (total : ℕ) (sel : List ContextChunk),
      sel.length < cfg.final_context_chunks →
      total ≤ cfg.max_context_length →
      (sel.map estTokens).sum = total →
      (selectGo cfg total sel cs).length ≤ cfg.final_context_chunks ∧
        ((selectGo cfg total sel cs).map estTokens).sum ≤ cfg.max_context_length := by
  induction cs with
  | nil =>
    intro total sel hlen htot hsum
    simp only [selectGo]
    exact ⟨le_of_lt hlen, by rw [hsum]; exact htot⟩
  | cons c cs ih =>
    intro total sel hlen htot hsum
    simp only [selectGo]
    by_cases hfit : total + estTokens c ≤ cfg.max_context_length
    · rw [if_pos hfit]
      by_cases hfull : cfg.final_context_chunks ≤ (sel ++ [c]).length
      · rw [if_pos hfull]
        refine ⟨?_, ?_⟩
        · simp only [List.length_append, List.length_cons, List.length_nil]
          omega
        · simp only [List.map_append, List.sum_append, List.map_cons, List.map_nil,
            List.sum_cons, List.sum_nil, hsum]
          omega
      · rw [if_neg hfull]
        refine ih (total + estTokens c) (sel ++ [c]) ?_ hfit ?_
        · simp only [List.length_append, List.length_cons, List.length_nil] at hfull ⊢
          omega
        · simp only [List.map_append, List.sum_append, List.map_cons, List.map_nil,
            List.sum_cons, List.sum_nil, hsum]
          omega
    · rw [if_neg hfit]
      by_cases hrem : 100 < cfg.max_context_length - total
      · rw [if_pos hrem]
        have hlen4 : 4 * ((cfg.max_context_length - total) + 1) ≤ c.content.length := by
          simp only [estTokens] at hfit
          omega
        refine ⟨?_, ?_⟩
        · simp only [List.length_append, List.length_cons, List.length_nil]
          omega
        · simp only [List.map_append, List.sum_append, List.map_cons, List.map_nil,
            List.sum_cons, List.sum_nil, hsum,
            estTokens_truncateChunk c (cfg.max_context_length - total) hlen4]
          omega
      · rw [if_neg hrem]
        exact ⟨le_of_lt hlen, by rw [hsum]; exact htot⟩

/-- Claim C1: for every input list of chunks (and any configuration with a
positive `final_context_chunks`, which holds of the program configuration),
`_select_optimal_context` returns at most `final_context_chunks` chunks and
the sum of the estimated token costs `len(content) // 4` of the returned
chunks never exceeds `max_context_length`. -/
theorem packer_respects_bounds (cfg : RAGConfig) (chunks : List ContextChunk)
    (hfinal : 0 < cfg.final_context_chunks) :
    (selectOptimalContext cfg chunks).length ≤ cfg.final_context_chunks ∧
      ((selectOptimalContext cfg chunks).map estTokens).sum ≤ cfg.max_context_length :=
  selectGo_bounds cfg chunks 0 [] (by simpa using hfinal) (Nat.zero_le _) rfl

/-- Witness for C1 at the program configuration and a concrete chunk list. -/
theorem packer_respects_bounds_witness :
    0 < config.final_context_chunks ∧
      ((selectOptimalContext config [helloChunk]).length ≤ config.final_context_chunks ∧
        ((selectOptimalContext config [helloChunk]).map estTokens).sum ≤
          config.max_context_length) :=
  ⟨by decide, packer_respects_bounds config [helloChunk] (by decide)⟩

/-- Claim C10: the packer stops at the first chunk that does not fit in the
remaining budget even when no truncation occurs: when the budget test fails
and at most 100 estimated tokens remain, the already-selected chunks are
returned and no later chunk of the input is considered. -/
theorem packer_stops_at_first_overflow (cfg : RAGConfig) (total : ℕ)
    (sel : List ContextChunk) (c : ContextChunk) (cs : List ContextChunk)
    (hover : cfg.max_context_length < total + estTokens c)
    (hrem : cfg.max_context_length - total ≤ 100) :
    selectGo cfg total sel (c :: cs) = sel := by
  simp only [selectGo]
  rw [if_neg (by omega), if_neg (by omega)]

/-- Witness for C10: a 75-token chunk overflows the 50-token budget, and the
4-character chunk after it is dropped although it would fit on its own. -/
theorem packer_stops_at_first_overflow_witness :
    (tinyConfig.max_context_length < 0 + estTokens c10BigChunk ∧
      tinyConfig.max_context_length - 0 ≤ 100) ∧
      selectGo tinyConfig 0 [] [c10BigChunk, c10SmallChunk] = [] :=
  ⟨⟨by decide, by decide⟩,
    packer_stops_at_first_overflow tinyConfig 0 [] c10BigChunk [c10SmallChunk]
      (by decide) (by decide)⟩

/-- Counterexample to C4 as stated: under the default configuration,
`c4LongChunk` (3900 tokens) is selected, leaving a remaining budget of
exactly 100 tokens; `c4NextChunk` (125 tokens) does not fit, and although
"at least 100" estimated tokens remain, the code drops it without
truncation, because its test is the strict `remaining_tokens > 100`. -/
theorem truncation_boundary_counterexample :
    config.max_context_length < estTokens c4LongChunk + estTokens c4NextChunk ∧
      estTokens c4LongChunk ≤ config.max_context_length ∧
      config.max_context_length - estTokens c4LongChunk = 100 ∧
      selectOptimalContext config [c4LongChunk, c4NextChunk] = [c4LongChunk] := by
  have hA : estTokens c4LongChunk = 3900 := by
    simp only [c4LongChunk, sampleChunk, estTokens, List.length_replicate]
  have hB : estTokens c4NextChunk = 125 := by
    simp only [c4NextChunk, sampleChunk, estTokens, List.length_replicate]
  refine ⟨?_, ?_, ?_, ?_⟩
  · rw [hA, hB]; norm_num [config]
  · rw [hA]; norm_num [config]
  · rw [hA]; norm_num [config]
  · rw [selectOptimalContext, selectGo]
    simp only [hA, hB, config]
    rw [if_pos (by norm_num), if_neg (by norm_num)]
    rw [selectGo]
    simp only [hA, hB]
    rw [if_neg (by norm_num), if_neg (by norm_num)]
    simp

/-- Claim C4 amended: in the packer, for every chunk that does not fit in
the remaining budget, if STRICTLY MORE than 100 estimated tokens remain,
the chunk is truncated to `content[:remaining_tokens*4] + "..."`, the
truncated chunk is included, and no further chunks are considered. -/
theorem truncation_boundary (cfg : RAGConfig) (total : ℕ) (sel : List ContextChunk)
    (c : ContextChunk) (cs : List ContextChunk)
    (hover : cfg.max_context_length < total + estTokens c)
    (hrem : 100 < cfg.max_context_length - total) :
    selectGo cfg total sel (c :: cs) =
      sel ++ [truncateChunk c (cfg.max_context_length - total)] := by
  simp only [selectGo]
  rw [if_neg (by omega), if_pos hrem]

/-- Witness for the amended C4: a 175-token chunk against a 150-token
budget is truncated to 150 tokens and included. -/
theorem truncation_boundary_witness :
    (smallConfig.max_context_length < 0 + estTokens c4BigChunk ∧
      100 < smallConfig.max_context_length - 0) ∧
      selectGo smallConfig 0 [] [c4BigChunk] =
        [] ++ [truncateChunk c4BigChunk (smallConfig.max_context_length - 0)] :=
  ⟨⟨by decide, by decide⟩,
    truncation_boundary smallConfig 0 [] c4BigChunk [] (by decide) (by decide)⟩

theorem tooSimilar_eq_spec : tooSimilar = specTooSimilar := by
  funext c e
  rw [tooSimilar, specTooSimilar]
  by_cases hc : 0 < (wordSet c.content).card ∧ 0 < (wordSet e.content).card
  · rw [if_pos hc]
  · rw [if_neg hc]
    have hz : (wordSet c.content).card = 0 ∨ (wordSet e.content).card = 0 := by
      rcases not_and_or.mp hc with h | h
      · exact Or.inl (Nat.eq_zero_of_not_pos h)
      · exact Or.inr (Nat.eq_zero_of_not_pos h)
    have hinter : ((wordSet c.content) ∩ (wordSet e.content)).card = 0 := by
      rcases hz with h | h
      · rw [Finset.card_eq_zero] at h ⊢
        rw [h]
        exact Finset.empty_inter _
      · rw [Finset.card_eq_zero] at h ⊢
        rw [h]
        exact Finset.inter_empty _
    have h0 : overlapQ (wordSet c.content) (wordSet e.content) = 0 := by
      rw [overlapQ, hinter]
      simp
    simp [h0]
    norm_num

theorem diversityGo_eq_spec (cs : List ContextChunk) :
    ∀ acc, diversityGo acc cs = diversitySpecGo acc cs := by
  induction cs with
  | nil => intro acc; rfl
  | cons c cs ih =>
    intro acc
    rw [diversityGo, diversitySpecGo, tooSimilar_eq_spec]
    by_cases h : acc.any (fun e => specTooSimilar c e)
    · rw [if_pos h, if_pos h, ih]
    · rw [if_neg h, if_neg h, ih]

theorem diversityGo_sublist (cs : List ContextChunk) :
    ∀ acc, (diversityGo acc cs).Sublist cs := by
  induction cs with
  | nil => intro acc; exact List.Sublist.refl []
  | cons c cs ih =>
    intro acc
    rw [diversityGo]
    by_cases h : acc.any (fun e => tooSimilar c e)
    · rw [if_pos h]
      exact (ih acc).cons c
    · rw [if_neg h]
      exact (ih (acc ++ [c])).cons₂ c

theorem ensureDiversity_sublist (l : List ContextChunk) : (ensureDiversity l).Sublist l := by
  rw [ensureDiversity.eq_def]
  by_cases h : l.length ≤ 1
  · rw [if_pos h]
  · rw [if_neg h]
    match l with
    | [] => exact List.Sublist.refl []
    | c :: cs => exact (diversityGo_sublist cs [c]).cons₂ c

theorem diversityGo_idem (cs : List ContextChunk) :
    ∀ acc, diversityGo acc (diversityGo acc cs) = diversityGo acc cs := by
  induction cs with
  | nil => intro acc; rfl
  | cons c cs ih =>
    intro acc
    by_cases h : acc.any (fun e => tooSimilar c e)
    · have e1 : diversityGo acc (c :: cs) = diversityGo acc cs := by
        rw [diversityGo, if_pos h]
      rw [e1, ih]
    · have e1 : diversityGo acc (c :: cs) = c :: diversityGo (acc ++ [c]) cs := by
        rw [diversityGo, if_neg h]
      rw [e1, diversityGo, if_neg h]
      exact congrArg (c :: ·) (ih (acc ++ [c]))

theorem ensureDiversity_idem (l : List ContextChunk) :
    ensureDiversity (ensureDiversity l) = ensureDiversity l := by
  match l with
  | [] => rfl
  | [c] => rfl
  | a :: b :: rest =>
    have e1 : ensureDiversity (a :: b :: rest) = a :: diversityGo [a] (b :: rest) := by
      rw [ensureDiversity, if_neg (by simp)]
    rw [e1]
    cases hout : diversityGo [a] (b :: rest) with
    | nil => rfl
    | cons x xs =>
      have e2 : ensureDiversity (a :: x :: xs) = a :: diversityGo [a] (x :: xs) := by
        rw [ensureDiversity, if_neg (by simp)]
      rw [e2, ← hout, diversityGo_idem]

/-- Claim C5: for every non-empty input, the diversity filter keeps the
first chunk, returns an order-preserving sublist of the input, and agrees
with the spec-level filter that drops a later chunk exactly when its
word-set Jaccard overlap with some already-accepted chunk exceeds 0.7. -/
theorem diversity_filter_spec (chunks : List ContextChunk) (h : chunks ≠ []) :
    (ensureDiversity chunks).head? = chunks.head? ∧
      (ensureDiversity chunks).Sublist chunks ∧
      ensureDiversity chunks = diversitySpec chunks := by
  match chunks with
  | c :: cs =>
    refine ⟨?_, ensureDiversity_sublist _, ?_⟩
    · match cs with
      | [] => rfl
      | b :: cs' =>
        rw [ensureDiversity, if_neg (by simp)]
        rfl
    · match cs with
      | [] => rfl
      | b :: cs' =>
        rw [ensureDiversity, if_neg (by simp), diversitySpec]
        rw [diversityGo_eq_spec]

/-- Witness for C5 at two chunks with disjoint word sets. -/
theorem diversity_filter_spec_witness :
    ([c5ChunkA, c5ChunkB] ≠ ([] : List ContextChunk)) ∧
      ((ensureDiversity [c5ChunkA, c5ChunkB]).head? =
          ([c5ChunkA, c5ChunkB] : List ContextChunk).head? ∧
        (ensureDiversity [c5ChunkA, c5ChunkB]).Sublist [c5ChunkA, c5ChunkB] ∧
        ensureDiversity [c5ChunkA, c5ChunkB] = diversitySpec [c5ChunkA, c5ChunkB]) :=
  ⟨by decide, diversity_filter_spec [c5ChunkA, c5ChunkB] (by decide)⟩

theorem userFilter_sublist (fp : Option FilterParams) (l : List ContextChunk) :
    (userFilter fp l).Sublist l := by
  match fp with
  | none => exact List.Sublist.refl l
  | some ⟨ft, ms⟩ =>
    cases ft <;> cases ms <;> simp only [userFilter] <;>
      first
        | exact List.Sublist.refl l
        | exact List.filter_sublist l
        | exact (List.filter_sublist _).trans (List.filter_sublist l)

theorem userFilter_eq_self (fp : Option FilterParams) {src out : List ContextChunk}
    (hmem : ∀ a ∈ out, a ∈ userFilter fp src) : userFilter fp out = out := by
  match fp with
  | none => rfl
  | some ⟨ft, ms⟩ =>
    cases ft with
    | none =>
      cases ms with
      | none => rfl
      | some m =>
        simp only [userFilter] at hmem ⊢
        exact List.filter_eq_self.mpr fun a ha => (List.mem_filter.mp (hmem a ha)).2
    | some ft =>
      cases ms with
      | none =>
        simp only [userFilter] at hmem ⊢
        exact List.filter_eq_self.mpr fun a ha => (List.mem_filter.mp (hmem a ha)).2
      | some m =>
        simp only [userFilter] at hmem ⊢
        have h1 : ∀ a ∈ out, a ∈ src.filter
            (fun c => c.metadata.lookup "file_type".toList == some ft) ∧
            (decide (m ≤ a.relevance_score)) = true := by
          intro a ha
          have := List.mem_filter.mp (hmem a ha)
          exact ⟨this.1, this.2⟩
        rw [List.filter_eq_self.mpr
            (fun a ha => (List.mem_filter.mp (h1 a ha).1).2)]
        exact List.filter_eq_self.mpr fun a ha => (h1 a ha).2

/-- Claim C6: the combined quality, user and diversity filter
`_apply_advanced_filtering` is idempotent. -/
theorem advanced_filtering_idempotent (chunks : List ContextChunk) (query : PyStr)
    (fp : Option FilterParams) :
    applyAdvancedFiltering (applyAdvancedFiltering chunks query fp) query fp =
      applyAdvancedFiltering chunks query fp := by
  rw [applyAdvancedFiltering, applyAdvancedFiltering]
  have hq : (ensureDiversity (userFilter fp (chunks.filter qualityOK))).filter qualityOK =
      ensureDiversity (userFilter fp (chunks.filter qualityOK)) := by
    apply List.filter_eq_self.mpr
    intro a ha
    have h1 : a ∈ userFilter fp (chunks.filter qualityOK) :=
      (ensureDiversity_sublist _).subset ha
    have h2 : a ∈ chunks.filter qualityOK := (userFilter_sublist fp _).subset h1
    exact (List.mem_filter.mp h2).2
  rw [hq]
  have hu : userFilter fp (ensureDiversity (userFilter fp (chunks.filter qualityOK))) =
      ensureDiversity (userFilter fp (chunks.filter qualityOK)) :=
    userFilter_eq_self fp (fun a ha => (ensureDiversity_sublist _).subset ha)
  rw [hu, ensureDiversity_idem]

theorem scoreGE_trans : ∀ (a b c : ContextChunk), scoreGE a b → scoreGE b c → scoreGE a c := by
  intro a b c h1 h2
  simp only [scoreGE, decide_eq_true_eq] at h1 h2 ⊢
  exact le_trans h2 h1

theorem scoreGE_total : ∀ (a b : ContextChunk), scoreGE a b || scoreGE b a := by
  intro a b
  simp only [scoreGE]
  rcases le_total b.relevance_score a.relevance_score with h | h
  · simp [h]
  · simp [h]

theorem mergeSort_filter_score (l : List ContextChunk) (s : ℚ) :
    (l.mergeSort scoreGE).filter (fun c => decide (c.relevance_score = s)) =
      l.filter (fun c => decide (c.relevance_score = s)) := by
  have hall : ∀ a ∈ l.filter (fun c => decide (c.relevance_score = s)),
      a.relevance_score = s := by
    intro a ha
    simpa using (List.mem_filter.mp ha).2
  have hpw : (l.filter (fun c => decide (c.relevance_score = s))).Pairwise
      (fun a b => scoreGE a b) := by
    refine List.pairwise_of_forall_mem_list ?_
    intro a ha b hb
    simp [scoreGE, hall a ha, hall b hb]
  have hsub := List.sublist_mergeSort scoreGE_trans scoreGE_total hpw (List.filter_sublist l)
  have hfs : (l.filter (fun c => decide (c.relevance_score = s))).filter
      (fun c => decide (c.relevance_score = s)) =
      l.filter (fun c => decide (c.relevance_score = s)) :=
    List.filter_eq_self.mpr (fun a ha => by simpa using hall a ha)
  have hsub2 : (l.filter (fun c => decide (c.relevance_score = s))).Sublist
      ((l.mergeSort scoreGE).filter (fun c => decide (c.relevance_score = s))) := by
    have h2 := hsub.filter (fun c => decide (c.relevance_score = s))
    rwa [hfs] at h2
  have hperm : ((l.mergeSort scoreGE).filter (fun c => decide (c.relevance_score = s))).Perm
      (l.filter (fun c => decide (c.relevance_score = s))) :=
    (List.mergeSort_perm l scoreGE).filter _
  exact (hsub2.eq_of_length hperm.length_eq.symm).symm

/-- Claim C7: when the input already fits in `final_context_chunks`, the
re-ranker issues no LLM call and returns exactly the input chunks (a
permutation, so scores and content are unchanged), sorted in descending
score order, stably: for every score value the sub-list of chunks carrying
that score keeps its original order. -/
theorem rerank_short_circuit (cfg : RAGConfig) (client : Bool) (oracle : ℕ → Option ℚ)
    (query : PyStr) (chunks : List ContextChunk)
    (h : chunks.length ≤ cfg.final_context_chunks) :
    (llmRerank cfg client oracle query chunks).2 = 0 ∧
      ((llmRerank cfg client oracle query chunks).1).Perm chunks ∧
      ((llmRerank cfg client oracle query chunks).1).Pairwise
        (fun a b => b.relevance_score ≤ a.relevance_score) ∧
      ∀ s : ℚ,
        ((llmRerank cfg client oracle query chunks).1).filter
            (fun c => decide (c.relevance_score = s)) =
          chunks.filter (fun c => decide (c.relevance_score = s)) := by
  by_cases hnil : chunks = []
  · subst hnil
    exact ⟨rfl, List.Perm.refl [], List.Pairwise.nil, fun s => rfl⟩
  · have e : llmRerank cfg client oracle query chunks = (sortByScoreDesc chunks, 0) := by
      rw [llmRerank, if_neg hnil, if_pos h]
    rw [e]
    refine ⟨rfl, List.mergeSort_perm chunks scoreGE, ?_,
      fun s => mergeSort_filter_score chunks s⟩
    have hp := List.sorted_mergeSort scoreGE_trans scoreGE_total chunks
    exact hp.imp (fun {a b} hab => by simpa [scoreGE] using hab)

/-- Witness for C7 at two chunks listed in ascending score order. -/
theorem rerank_short_circuit_witness :
    ([c7ChunkA, c7ChunkB].length ≤ config.final_context_chunks) ∧
      ((llmRerank config true (fun _ => none) [] [c7ChunkA, c7ChunkB]).2 = 0 ∧
        ((llmRerank config true (fun _ => none) [] [c7ChunkA, c7ChunkB]).1).Perm
          [c7ChunkA, c7ChunkB] ∧
        ((llmRerank config true (fun _ => none) [] [c7ChunkA, c7ChunkB]).1).Pairwise
          (fun a b => b.relevance_score ≤ a.relevance_score) ∧
        ∀ s : ℚ,
          ((llmRerank config true (fun _ => none) [] [c7ChunkA, c7ChunkB]).1).filter
              (fun c => decide (c.relevance_score = s)) =
            [c7ChunkA, c7ChunkB].filter (fun c => decide (c.relevance_score = s))) :=
  ⟨by decide, rerank_short_circuit config true (fun _ => none) [] [c7ChunkA, c7ChunkB]
    (by decide)⟩

/-- Claim C2: every chunk the Retriever returns comes from an input hit with
distance `d` and carries `relevance_score = max(0, 1-d)`; under the
hypothesis that the vector index returns non-negative distances (the Chroma
collection uses the L2 metric) every returned score lies in `[0, 1]`, and no
returned chunk scores below `min_relevance_score`. -/
theorem retrieval_score_bounds (cfg : RAGConfig) (hits : List Hit)
    (hd : ∀ h ∈ hits, 0 ≤ h.distance) :
    ∀ c ∈ retrieveFilter cfg hits,
      (∃ h ∈ hits, c.relevance_score = max 0 (1 - h.distance)) ∧
        0 ≤ c.relevance_score ∧ c.relevance_score ≤ 1 ∧
        cfg.min_relevance_score ≤ c.relevance_score := by
  intro c hc
  simp only [retrieveFilter, List.mem_filterMap] at hc
  obtain ⟨h, hh, hfc⟩ := hc
  by_cases hmin : cfg.min_relevance_score ≤ max 0 (1 - h.distance)
  · rw [if_pos hmin] at hfc
    have hrec := Option.some.inj hfc
    subst hrec
    refine ⟨⟨h, hh, rfl⟩, le_max_left 0 _, ?_, hmin⟩
    have hd0 := hd h hh
    apply max_le (by norm_num)
    linarith
  · rw [if_neg hmin] at hfc
    exact absurd hfc (by simp)

/-- Witness for C2 at one hit of distance 1/2. -/
theorem retrieval_score_bounds_witness :
    (∀ h ∈ [sampleHit], 0 ≤ h.distance) ∧
      ∀ c ∈ retrieveFilter config [sampleHit],
        (∃ h ∈ [sampleHit], c.relevance_score = max 0 (1 - h.distance)) ∧
          0 ≤ c.relevance_score ∧ c.relevance_score ≤ 1 ∧
          config.min_relevance_score ≤ c.relevance_score := by
  have hd : ∀ h ∈ [sampleHit], 0 ≤ h.distance := by
    intro h hh
    rw [List.mem_singleton] at hh
    subst hh
    norm_num [sampleHit]
  exact ⟨hd, retrieval_score_bounds config [sampleHit] hd⟩

theorem llmRerank_nil (cfg : RAGConfig) (client : Bool) (oracle : ℕ → Option ℚ)
    (query : PyStr) : llmRerank cfg client oracle query [] = ([], 0) := rfl

theorem selectOptimalContext_nil (cfg : RAGConfig) : selectOptimalContext cfg [] = [] := rfl

/-- Claim C3: when retrieval plus filtering yields zero context chunks, the
query endpoint returns the canned insufficient-information answer with
confidence 0 and empty source and context lists, and the whole pipeline
issues zero LLM calls (the re-rank and packing stages reduce to no-ops on
the empty list and answer generation is never reached). -/
theorem empty_context_fast_path (cfg : RAGConfig) (client : Bool)
    (oracle : ℕ → Option ℚ) (ans : PyStr) (req : QueryRequest) (hits : List Hit)
    (h : applyAdvancedFiltering (retrieveFilter cfg hits) req.query req.filter_params = []) :
    queryRag cfg client oracle ans req hits =
      ({ query := req.query
         answer := cannedAnswer
         sources := []
         context_used := []
         confidence_score := 0 }, 0) := by
  simp only [queryRag, retrieveContext, h, llmRerank_nil, selectOptimalContext_nil]
  simp

/-- Witness for C3 at an empty hit list. -/
theorem empty_context_fast_path_witness :
    (applyAdvancedFiltering (retrieveFilter config []) plainReq.query
        plainReq.filter_params = []) ∧
      queryRag config false (fun _ => none) [] plainReq [] =
        ({ query := plainReq.query
           answer := cannedAnswer
           sources := []
           context_used := []
           confidence_score := 0 }, 0) :=
  ⟨by decide, empty_context_fast_path config false (fun _ => none) [] plainReq []
    (by decide)⟩

theorem mean_mem_unit (l : List ℚ) (hne : l ≠ [])
    (h : ∀ x ∈ l, 0 ≤ x ∧ x ≤ 1) :
    0 ≤ l.sum / (l.length : ℚ) ∧ l.sum / (l.length : ℚ) ≤ 1 := by
  have hlen : 0 < (l.length : ℚ) := by
    have hl : 0 < l.length := List.length_pos.mpr hne
    exact_mod_cast hl
  constructor
  · apply div_nonneg _ (le_of_lt hlen)
    have h0 : (l.length • (0 : ℚ)) ≤ l.sum :=
      List.card_nsmul_le_sum l 0 (fun x hx => (h x hx).1)
    simpa using h0
  · rw [div_le_one hlen]
    calc l.sum ≤ l.length • (1 : ℚ) := List.sum_le_card_nsmul l 1 (fun x hx => (h x hx).2)
    _ = (l.length : ℚ) := by simp

theorem confFactors_mem_unit (answer : PyStr) (chunks : List ContextChunk)
    (h : ∀ c ∈ chunks, 0 ≤ c.relevance_score ∧ c.relevance_score ≤ 1) :
    ∀ x ∈ confFactors answer chunks, 0 ≤ x ∧ x ≤ 1 := by
  intro x hx
  rw [confFactors] at hx
  rcases List.mem_append.mp hx with hx | hx
  · by_cases hc : chunks = []
    · rw [if_pos hc] at hx
      simp at hx
    · rw [if_neg hc] at hx
      simp only [List.mem_singleton] at hx
      subst hx
      rw [avgRelevance]
      have hm := mean_mem_unit (chunks.map (fun c => c.relevance_score))
        (by simpa using hc)
        (by
          intro x hx
          obtain ⟨c, hcm, rfl⟩ := List.mem_map.mp hx
          exact h c hcm)
      rwa [List.length_map] at hm
  · simp only [List.mem_cons, List.mem_singleton, List.not_mem_nil, or_false] at hx
    rcases hx with hx | hx | hx <;> subst hx
    · constructor
      · apply le_min (by norm_num)
        apply div_nonneg _ (by norm_num)
        exact_mod_cast Nat.zero_le _
      · exact min_le_left 1 _
    · constructor
      · exact le_max_left 0 _
      · apply max_le (by norm_num)
        have hk : (0 : ℚ) ≤ (uncertaintyPhrases.countP
            (fun p => containsSub (pyLower answer) p) : ℚ) * (2/10) := by
          positivity
        linarith
    · rw [citationScore]
      split
      · norm_num
      · norm_num

/-- Claim C8: whenever all chunk relevance scores lie in `[0, 1]`, the
confidence score is the arithmetic mean of the factors present (three
factors with no context chunks, four otherwise) and lies in `[0, 1]`. -/
theorem confidence_score_bounds (query answer : PyStr) (chunks : List ContextChunk)
    (h : ∀ c ∈ chunks, 0 ≤ c.relevance_score ∧ c.relevance_score ≤ 1) :
    calcConfidence query answer chunks =
        (confFactors answer chunks).sum / ((confFactors answer chunks).length : ℚ) ∧
      (confFactors answer chunks).length = (if chunks = [] then 3 else 4) ∧
      0 ≤ calcConfidence query answer chunks ∧
      calcConfidence query answer chunks ≤ 1 := by
  have hne : confFactors answer chunks ≠ [] := by
    rw [confFactors]
    by_cases hc : chunks = [] <;> simp [hc]
  have e : calcConfidence query answer chunks =
      (confFactors answer chunks).sum / ((confFactors answer chunks).length : ℚ) := by
    simp only [calcConfidence]
    rw [if_neg hne]
  have hb := mean_mem_unit _ hne (confFactors_mem_unit answer chunks h)
  refine ⟨e, ?_, e ▸ hb.1, e ▸ hb.2⟩
  rw [confFactors]
  by_cases hc : chunks = [] <;> simp [hc]

/-- Witness for C8 at the empty answer and empty chunk list. -/
theorem confidence_score_bounds_witness :
    (∀ c ∈ ([] : List ContextChunk), 0 ≤ c.relevance_score ∧ c.relevance_score ≤ 1) ∧
      (calcConfidence [] [] [] =
          (confFactors [] []).sum / ((confFactors [] []).length : ℚ) ∧
        (confFactors [] []).length = (if ([] : List ContextChunk) = [] then 3 else 4) ∧
        0 ≤ calcConfidence [] [] [] ∧ calcConfidence [] [] [] ≤ 1) :=
  ⟨by simp, confidence_score_bounds [] [] [] (by simp)⟩

/-- Counterexample to C9 as stated: a retrieved document of 201 characters
reaches the sources list of a successful response with a content preview of
203 characters (200 kept characters plus a three-character ellipsis), so a
preview may exceed 200 characters. -/
theorem source_preview_length_counterexample :
    ((queryRag config false (fun _ => none) [] plainReq [c9Hit]).1.sources.map
        (fun s => s.content_preview.length)) = [203] ∧
      ¬ ((queryRag config false (fun _ => none) [] plainReq [c9Hit]).1.sources.all
          (fun s => decide (s.content_preview.length ≤ 200))) := by
  have h1 : retrieveFilter config [c9Hit] = [c9Chunk] := by
    simp only [retrieveFilter, List.filterMap_cons, List.filterMap_nil]
    rw [if_pos (by norm_num [config, c9Hit])]
    have hs : max (0 : ℚ) (1 - c9Hit.distance) = 1 := by
      norm_num [c9Hit]
    simp [c9Hit, c9Chunk, hs]
  have hf : applyAdvancedFiltering [c9Chunk] plainReq.query plainReq.filter_params
      = [c9Chunk] := by
    rw [applyAdvancedFiltering]
    have hq : [c9Chunk].filter qualityOK = [c9Chunk] := by
      rw [List.filter_eq_self]
      intro a ha
      rw [List.mem_singleton] at ha
      subst ha
      decide
    rw [hq]
    have hu : userFilter plainReq.filter_params [c9Chunk] = [c9Chunk] := rfl
    rw [hu]
    rfl
  have hr : llmRerank config false (fun _ => none) plainReq.query [c9Chunk]
      = ([c9Chunk], 0) := by
    rw [llmRerank, if_neg (by simp), if_pos (by decide)]
    rw [sortByScoreDesc, List.mergeSort_singleton]
  have hsel : selectOptimalContext config [c9Chunk] = [c9Chunk] := by
    rw [selectOptimalContext, selectGo]
    rw [if_pos (by decide), if_neg (by decide), selectGo]
    simp
  constructor
  · simp only [queryRag, retrieveContext, h1, hf, hr, hsel]
    rw [if_neg (by simp)]
    decide
  · simp only [queryRag, retrieveContext, h1, hf, hr, hsel]
    rw [if_neg (by simp)]
    decide

theorem previewOf_length (c : ContextChunk) : (previewOf c).length ≤ 203 := by
  rw [previewOf]
  split
  · simp only [List.length_append, List.length_take, length_dots]
    omega
  · omega

theorem mkSources_preview (chunks : List ContextChunk) (n : ℕ) :
    ∀ s ∈ mkSources chunks n, s.content_preview.length ≤ 203 := by
  intro s hs
  rw [mkSources] at hs
  obtain ⟨c, hc, rfl⟩ := List.mem_map.mp hs
  exact previewOf_length c

/-- Claim C9 amended: in every query response, each entry of the sources
list has a content preview of at most 203 characters (200 content
characters plus the three-character ellipsis). -/
theorem source_preview_length_bound (cfg : RAGConfig) (client : Bool)
    (oracle : ℕ → Option ℚ) (ans : PyStr) (req : QueryRequest) (hits : List Hit) :
    ((queryRag cfg client oracle ans req hits).1.sources.all
      (fun s => decide (s.content_preview.length ≤ 203))) = true := by
  rw [List.all_eq_true]
  intro s hs
  rw [decide_eq_true_eq]
  simp only [queryRag] at hs
  by_cases hctx :
      (retrieveContext cfg client oracle req.query req.filter_params hits).1 = []
  · rw [if_pos hctx] at hs
    simp at hs
  · rw [if_neg hctx] at hs
    exact mkSources_preview _ _ s (by simpa using hs)

end RAGM
